import Mathlib

/-!
Verification development for the videomerger repository.

We shallowly embed the Python modules `video_processor_cli.py`,
`core/video_processor.py` and `app.py`:

* the filesystem is an association list from path to contents;
* the child-process layer (`subprocess.run`) is an oracle mapping a
  command line to an outcome: either the process completed with an exit
  code and captured output streams, or an exception was raised while
  spawning or communicating with it;
* each Python function becomes a Lean function over these, returning its
  result together with the updated filesystem and a trace of the events
  (manifest written, process spawned, manifest removed) that the claims
  talk about.

File contents are modelled as `List Char` so that line structure can be
reasoned about exactly.
-/

namespace Videomerger

/-- A filesystem: association list from path to file contents. -/
abbrev FS : Type := List (String × List Char)

/-- `os.path.exists`: does a path exist in the filesystem? -/
def FS.existsPath (fs : FS) (p : String) : Bool :=
  List.any fs (fun e => e.1 = p)

/-- `open(p, "w")` followed by writing `c`: (re)create the file at `p`
with contents `c`. -/
def FS.write (fs : FS) (p : String) (c : List Char) : FS :=
  (p, c) :: List.filter (fun e => e.1 ≠ p) fs

/-- `os.remove p`: delete the file at `p`. -/
def FS.remove (fs : FS) (p : String) : FS :=
  List.filter (fun e => e.1 ≠ p) fs

/-- Contents of the file at `p`, if it exists. -/
def FS.read (fs : FS) (p : String) : Option (List Char) :=
  Option.map Prod.snd (List.find? (fun e => e.1 = p) fs)

/-- Outcome of one `subprocess.run` invocation: the process completed
with an exit code and captured stdout/stderr, or an exception was raised
(executable missing, timeout, ...). -/
inductive RunOutcome where
  | completed (returncode : Int) (stdout : List Char) (stderr : List Char)
  | exn (msg : List Char)
deriving DecidableEq

/-- The typed result of `merge_videos` in `video_processor_cli.py`.
Each constructor corresponds to one `return` site of the Python
function, carrying the diagnostic payload printed there. -/
inductive MergeResult where
  | insufficientInputs
  | missingFile (path : String)
  | success (outputPath : String)
  | transcodeFailed (stderr : List Char)
  | invocationError (msg : List Char)
deriving DecidableEq

/-- Observable side effects of a `merge_videos` call. -/
inductive Event where
  | wroteManifest (content : List Char)
  | spawned (cmd : List String)
  | removedManifest
deriving DecidableEq

/-- Result, final filesystem and event trace of one `merge_videos` call. -/
structure MergeOutcome where
  result : MergeResult
  fs : FS
  events : List Event

/-- The single quote character, used by the manifest line format. -/
def sq : Char := Char.ofNat 39

/-- The fixed manifest filename `concat_list.txt`. -/
def concatFileName : String := "concat_list.txt"

/-- One manifest line body (without the trailing newline):
the Python code writes `f"file \x7bpath\x7d"` wrapped in single quotes. -/
def quoteRef (p : String) : List Char :=
  String.data "file " ++ sq :: String.data p ++ [sq]

/-- The full contents written to the manifest: one quoted reference per
input path, each followed by a newline, in input order. -/
def manifestContent : List String → List Char
  | [] => []
  | p :: ps => quoteRef p ++ Char.ofNat 10 :: manifestContent ps

/-- `quality_settings.get(quality, quality_settings["medium"])`:
the extra command-line arguments selecting the constant-rate factor. -/
def qualityArgs (q : String) : List String :=
  if q = "low" then ["-crf", "28"]
  else if q = "medium" then ["-crf", "23"]
  else if q = "high" then ["-crf", "18"]
  else ["-crf", "23"]

/-- The command line built by `merge_videos` for the transcoder. -/
def buildCmd (output_path quality : String) (overwrite : Bool) : List String :=
  ["ffmpeg", "-f", "concat", "-safe", "0", "-i", concatFileName,
   "-c:v", "libx264", "-preset", "medium"]
  ++ qualityArgs quality ++ ["-c:a", "aac"]
  ++ (if overwrite then ["-y"] else []) ++ [output_path]

/-- `for path in input_paths: if not os.path.exists(path): ...` —
the first input path that does not exist, in input order. -/
def firstMissing (fs : FS) : List String → Option String
  | [] => none
  | p :: ps => if fs.existsPath p then firstMissing fs ps else some p

/-- `merge_videos(input_paths, output_path, quality, overwrite)` from
`video_processor_cli.py`, with `run` the `subprocess.run` oracle.
Mirrors the source: validate count, validate existence in order, write
the manifest, build the command, run it, delete the manifest on every
exit path, and map the exit status to the result. -/
def merge_videos (run : List String → RunOutcome) (fs : FS)
    (input_paths : List String) (output_path : String)
    (quality : String) (overwrite : Bool) : MergeOutcome :=
  if input_paths.length < 2 then
    ⟨MergeResult.insufficientInputs, fs, []⟩
  else
    match firstMissing fs input_paths with
    | some p => ⟨MergeResult.missingFile p, fs, []⟩
    | none =>
      let content := manifestContent input_paths
      let fs1 := fs.write concatFileName content
      let cmd := buildCmd output_path quality overwrite
      match run cmd with
      | RunOutcome.completed rc _ err =>
          let fs2 := if fs1.existsPath concatFileName
                     then fs1.remove concatFileName else fs1
          if rc = 0 then
            ⟨MergeResult.success output_path, fs2,
             [Event.wroteManifest content, Event.spawned cmd, Event.removedManifest]⟩
          else
            ⟨MergeResult.transcodeFailed err, fs2,
             [Event.wroteManifest content, Event.spawned cmd, Event.removedManifest]⟩
      | RunOutcome.exn m =>
          let fs2 := if fs1.existsPath concatFileName
                     then fs1.remove concatFileName else fs1
          ⟨MergeResult.invocationError m, fs2,
           [Event.wroteManifest content, Event.spawned cmd, Event.removedManifest]⟩

/-- `check_ffmpeg()` from `video_processor_cli.py`: true exactly when the
probe process completed with exit status 0; any nonzero exit or
exception yields false. Total by construction. -/
def check_ffmpeg (probe : RunOutcome) : Bool :=
  match probe with
  | RunOutcome.completed rc _ _ => rc = 0
  | RunOutcome.exn _ => false

/-- `s.split("\n")[0]` in Python: the prefix of `s` before the first
newline (the whole of `s` when it has none). -/
def firstLine (s : List Char) : List Char :=
  List.takeWhile (fun c => c ≠ Char.ofNat 10) s

/-- `get_ffmpeg_version()` from `video_processor_cli.py`: the first line
of the probe's stdout on exit status 0, the literal `"unknown"` on any
nonzero exit or exception. Total by construction. -/
def get_ffmpeg_version (probe : RunOutcome) : List Char :=
  match probe with
  | RunOutcome.completed rc out _ =>
      if rc = 0 then firstLine out else String.data "unknown"
  | RunOutcome.exn _ => String.data "unknown"

/-- Python `"\n"`-splitting of file contents, as in `str.split("\n")`:
splitting the empty string yields `[""]`, and a trailing newline yields a
final empty fragment. Used to state the line structure of the manifest. -/
def splitNl : List Char → List (List Char)
  | [] => [[]]
  | c :: cs =>
      if c = Char.ofNat 10 then [] :: splitNl cs
      else
        match splitNl cs with
        | [] => [[c]]
        | l :: ls => (c :: l) :: ls

/-- Result type of `VideoProcessor.merge_videos` in
`core/video_processor.py`: the `ValueError`, the `FileNotFoundError`
with the offending path, or normal return of the output path. -/
inductive WebMergeResult where
  | valueError
  | fileNotFound (path : String)
  | ok (outputPath : String)
deriving DecidableEq

/-- Result, final filesystem and list of spawned child processes of one
web-layer merge call. -/
structure WebOutcome where
  result : WebMergeResult
  fs : FS
  spawned : List (List String)

/-- The placeholder text the web layer writes to the output path:
a fixed header line and a line reporting the input count. -/
def placeholderContent (n : Nat) : List Char :=
  String.data ("# Placeholder merged video file\n# Merged from "
    ++ toString n ++ " videos\n")

/-- `VideoProcessor.merge_videos(video_files, output_path)` from
`core/video_processor.py`: validate count and existence, then write the
placeholder text to the output path and return it. No child process is
ever spawned. -/
def VideoProcessor.merge_videos (fs : FS) (video_files : List String)
    (output_path : String) : WebOutcome :=
  if video_files.length < 2 then
    ⟨WebMergeResult.valueError, fs, []⟩
  else
    match firstMissing fs video_files with
    | some p => ⟨WebMergeResult.fileNotFound p, fs, []⟩
    | none =>
        ⟨WebMergeResult.ok output_path,
         fs.write output_path (placeholderContent video_files.length), []⟩

/-- `filename.rsplit(".", 1)[1]` for a filename containing a dot:
the substring after the last `.` character. -/
def afterLastDot : List Char → List Char
  | [] => []
  | c :: cs =>
      if c = '.' && !cs.contains '.' then cs else afterLastDot cs

/-- Python `str.lower()` on the extension (ASCII lowering). -/
def lowerStr (l : List Char) : List Char := l.map Char.toLower

/-- `allowed_file(filename, allowed_extensions)` from `app.py`:
`"." in filename and filename.rsplit(".", 1)[1].lower() in allowed_extensions`. -/
def allowed_file (filename : List Char) (allowed : List (List Char)) : Bool :=
  filename.contains '.' && allowed.contains (lowerStr (afterLastDot filename))

/-! ### Sample environments for the witness theorems -/

/-- A sample filesystem holding two input files. -/
def fs0 : FS := [("a.mp4", []), ("b.mp4", [])]

/-- A process oracle whose every invocation succeeds with exit 0. -/
def run0 : List String → RunOutcome :=
  fun _ => RunOutcome.completed 0 [] []

/-- A process oracle whose every invocation exits 1 with stderr
`invalid codec`. -/
def runFail : List String → RunOutcome :=
  fun _ => RunOutcome.completed 1 [] (String.data "invalid codec")

/-! ### Helper lemmas -/

lemma existsPath_write_self (fs : FS) (p : String) (c : List Char) :
    (fs.write p c).existsPath p = true := by
  simp [FS.write, FS.existsPath]

lemma existsPath_remove_self (fs : FS) (p : String) :
    (fs.remove p).existsPath p = false := by
  induction fs with
  | nil => rfl
  | cons e fs ih =>
      by_cases h : e.1 = p
      · simp only [FS.remove, FS.existsPath] at ih ⊢
        simp [h, ih]
      · simp only [FS.remove, FS.existsPath] at ih ⊢
        simp [h, ih]

lemma contains_eq_false_iff {α : Type} [BEq α] [LawfulBEq α]
    (l : List α) (a : α) : l.contains a = false ↔ a ∉ l := by
  rw [← Bool.not_eq_true]
  simp only [List.elem_eq_mem, decide_eq_true_eq]

lemma contains_eq_true_iff {α : Type} [BEq α] [LawfulBEq α]
    (l : List α) (a : α) : l.contains a = true ↔ a ∈ l := by
  simp only [List.elem_eq_mem, decide_eq_true_eq]

lemma takeWhile_all_append {p : Char → Bool} {l : List Char}
    (hl : ∀ c ∈ l, p c = true) {c : Char} (hc : p c = false) (r : List Char) :
    List.takeWhile p (l ++ c :: r) = l := by
  induction l with
  | nil => simp [List.takeWhile, hc]
  | cons a l ih =>
      have ha : p a = true := hl a (List.mem_cons_self a l)
      have hl2 : ∀ x ∈ l, p x = true := fun x hx => hl x (List.mem_cons_of_mem a hx)
      simp [List.takeWhile, ha, ih hl2]

lemma splitNl_line_append {l : List Char}
    (hl : ∀ c ∈ l, c ≠ Char.ofNat 10) (r : List Char) :
    splitNl (l ++ Char.ofNat 10 :: r) = l :: splitNl r := by
  induction l with
  | nil => simp [splitNl]
  | cons a l ih =>
      have ha : a ≠ Char.ofNat 10 := hl a (List.mem_cons_self a l)
      have hl2 : ∀ x ∈ l, x ≠ Char.ofNat 10 :=
        fun x hx => hl x (List.mem_cons_of_mem a hx)
      rw [List.cons_append, splitNl.eq_def]
      simp only [if_neg ha]
      rw [ih hl2]

lemma nl_not_mem_quoteRef {p : String} (hp : Char.ofNat 10 ∉ p.data) :
    ∀ c ∈ quoteRef p, c ≠ Char.ofNat 10 := by
  intro c hc he
  subst he
  rcases List.mem_append.mp hc with h | h
  · rcases List.mem_append.mp h with h | h
    · exact absurd h (by decide)
    · rcases List.mem_cons.mp h with h | h
      · exact absurd h (by decide)
      · exact hp h
  · exact absurd h (by decide)

lemma splitNl_manifestContent {inputs : List String}
    (h : ∀ p ∈ inputs, Char.ofNat 10 ∉ p.data) :
    splitNl (manifestContent inputs) = inputs.map quoteRef ++ [[]] := by
  induction inputs with
  | nil => rfl
  | cons p ps ih =>
      have hp : Char.ofNat 10 ∉ p.data := h p (List.mem_cons_self p ps)
      have hps : ∀ q ∈ ps, Char.ofNat 10 ∉ q.data :=
        fun q hq => h q (List.mem_cons_of_mem p hq)
      calc splitNl (manifestContent (p :: ps))
          = splitNl (quoteRef p ++ Char.ofNat 10 :: manifestContent ps) := rfl
        _ = quoteRef p :: splitNl (manifestContent ps) :=
            splitNl_line_append (nl_not_mem_quoteRef hp) _
        _ = (p :: ps).map quoteRef ++ [[]] := by
            rw [ih hps]; rfl

lemma firstMissing_append (fs : FS) {pre : List String} (p : String)
    (suf : List String) (hpre : ∀ q ∈ pre, fs.existsPath q = true)
    (hp : fs.existsPath p = false) :
    firstMissing fs (pre ++ p :: suf) = some p := by
  induction pre with
  | nil => simp [firstMissing, hp]
  | cons q pre ih =>
      have hq : fs.existsPath q = true := hpre q (List.mem_cons_self q pre)
      have hpre2 : ∀ x ∈ pre, fs.existsPath x = true :=
        fun x hx => hpre x (List.mem_cons_of_mem q hx)
      simp [firstMissing, hq, ih hpre2]

lemma afterLastDot_cons (c : Char) (cs : List Char) :
    afterLastDot (c :: cs)
      = if (decide (c = '.') && !cs.contains '.') = true then cs
        else afterLastDot cs := rfl

lemma afterLastDot_eq {a b : List Char} (hb : '.' ∉ b) :
    afterLastDot (a ++ '.' :: b) = b := by
  induction a with
  | nil =>
      have hc : List.contains b '.' = false := (contains_eq_false_iff b '.').mpr hb
      rw [List.nil_append, afterLastDot_cons, hc]
      simp
  | cons c a ih =>
      have hc : List.contains (a ++ '.' :: b) '.' = true := by
        rw [contains_eq_true_iff]; simp
      rw [List.cons_append, afterLastDot_cons, hc]
      simpa using ih

lemma afterLastDot_decomp {f : List Char} (h : '.' ∈ f) :
    ∃ a, f = a ++ '.' :: afterLastDot f ∧ '.' ∉ afterLastDot f := by
  induction f with
  | nil => cases h
  | cons c cs ih =>
      by_cases hcs : '.' ∈ cs
      · obtain ⟨a, ha, hna⟩ := ih hcs
        have hc : List.contains cs '.' = true := (contains_eq_true_iff cs '.').mpr hcs
        have hf : afterLastDot (c :: cs) = afterLastDot cs := by
          rw [afterLastDot_cons, hc]; simp
        refine ⟨c :: a, ?_, by rw [hf]; exact hna⟩
        rw [hf, List.cons_append, ← ha]
      · have hc : List.contains cs '.' = false := (contains_eq_false_iff cs '.').mpr hcs
        have hcd : c = '.' := by
          rcases List.mem_cons.mp h with rfl | hmem
          · rfl
          · exact absurd hmem hcs
        have hf : afterLastDot (c :: cs) = cs := by
          rw [afterLastDot_cons, hc, hcd]; simp
        refine ⟨[], ?_, by rw [hf]; exact hcs⟩
        rw [hf, hcd, List.nil_append]

lemma takeWhile_all {p : Char → Bool} {l : List Char}
    (hl : ∀ c ∈ l, p c = true) : List.takeWhile p l = l := by
  induction l with
  | nil => rfl
  | cons a l ih =>
      have ha : p a = true := hl a (List.mem_cons_self a l)
      have hl2 : ∀ x ∈ l, p x = true := fun x hx => hl x (List.mem_cons_of_mem a hx)
      simp [List.takeWhile, ha, ih hl2]

lemma merge_result_completed (run : List String → RunOutcome) (fs : FS)
    (input_paths : List String) (output_path quality : String) (overwrite : Bool)
    (rc : Int) (sout serr : List Char)
    (h2 : ¬ input_paths.length < 2)
    (hex : firstMissing fs input_paths = none)
    (hrun : run (buildCmd output_path quality overwrite)
      = RunOutcome.completed rc sout serr) :
    (merge_videos run fs input_paths output_path quality overwrite).result
      = if rc = 0 then MergeResult.success output_path
        else MergeResult.transcodeFailed serr := by
  unfold merge_videos
  rw [if_neg h2, hex]
  dsimp only
  rw [hrun]
  dsimp only
  by_cases h0 : rc = 0 <;> simp [h0]

lemma merge_fs_valid (run : List String → RunOutcome) (fs : FS)
    (input_paths : List String) (output_path quality : String) (overwrite : Bool)
    (h2 : ¬ input_paths.length < 2)
    (hex : firstMissing fs input_paths = none) :
    (merge_videos run fs input_paths output_path quality overwrite).fs
      = (fs.write concatFileName (manifestContent input_paths)).remove
          concatFileName := by
  unfold merge_videos
  rw [if_neg h2, hex]
  dsimp only
  cases hrun : run (buildCmd output_path quality overwrite) with
  | completed rc sout serr =>
      by_cases h0 : rc = 0 <;> simp [h0, existsPath_write_self]
  | exn m => simp [existsPath_write_self]

lemma merge_events_valid (run : List String → RunOutcome) (fs : FS)
    (input_paths : List String) (output_path quality : String) (overwrite : Bool)
    (h2 : ¬ input_paths.length < 2)
    (hex : firstMissing fs input_paths = none) :
    (merge_videos run fs input_paths output_path quality overwrite).events
      = [Event.wroteManifest (manifestContent input_paths),
         Event.spawned (buildCmd output_path quality overwrite),
         Event.removedManifest] := by
  unfold merge_videos
  rw [if_neg h2, hex]
  dsimp only
  cases hrun : run (buildCmd output_path quality overwrite) with
  | completed rc sout serr =>
      by_cases h0 : rc = 0 <;> simp [h0]
  | exn m => simp

/-! ### Claim theorems -/

/-- C1: for every list of input paths accepted by validation, the
manifest written by `merge_videos` lists exactly those paths, one per
line, each in the quoted-reference format, in exactly the order given,
with no reordering and no deduplication: the write event carries
`manifestContent input_paths`, and splitting that content on newlines
yields precisely the quoted references of the inputs in order (plus the
empty fragment after the final newline). -/
theorem manifest_lists_inputs_in_order (run : List String → RunOutcome)
    (fs : FS) (input_paths : List String) (output_path quality : String)
    (overwrite : Bool)
    (h2 : 2 ≤ input_paths.length)
    (hex : firstMissing fs input_paths = none)
    (hnl : ∀ p ∈ input_paths, Char.ofNat 10 ∉ p.data) :
    Event.wroteManifest (manifestContent input_paths)
        ∈ (merge_videos run fs input_paths output_path quality overwrite).events
    ∧ splitNl (manifestContent input_paths)
        = input_paths.map quoteRef ++ [[]] := by
  refine ⟨?_, splitNl_manifestContent hnl⟩
  rw [merge_events_valid run fs input_paths output_path quality overwrite
    (Nat.not_lt.mpr h2) hex]
  exact List.mem_cons_self _ _

/-- Witness for C1 at a concrete two-file merge. -/
theorem manifest_lists_inputs_in_order_witness :
    Event.wroteManifest (manifestContent ["a.mp4", "b.mp4"])
        ∈ (merge_videos run0 fs0 ["a.mp4", "b.mp4"] "out.mp4" "medium" false).events
    ∧ splitNl (manifestContent ["a.mp4", "b.mp4"])
        = ["a.mp4", "b.mp4"].map quoteRef ++ [[]] :=
  manifest_lists_inputs_in_order run0 fs0 ["a.mp4", "b.mp4"] "out.mp4"
    "medium" false (by decide) (by rfl) (by decide)

/-- C2: whenever a `merge_videos` call passes validation, the manifest
file does not exist on disk after the call returns, for every behaviour
of the child process (exit 0, nonzero exit, or an exception while
spawning or communicating). -/
theorem manifest_removed_on_every_exit_path (run : List String → RunOutcome)
    (fs : FS) (input_paths : List String) (output_path quality : String)
    (overwrite : Bool)
    (h2 : 2 ≤ input_paths.length)
    (hex : firstMissing fs input_paths = none) :
    (merge_videos run fs input_paths output_path quality
      overwrite).fs.existsPath concatFileName = false := by
  rw [merge_fs_valid run fs input_paths output_path quality overwrite
    (Nat.not_lt.mpr h2) hex]
  exact existsPath_remove_self _ _

/-- Witness for C2 at a concrete two-file merge. -/
theorem manifest_removed_on_every_exit_path_witness :
    (merge_videos run0 fs0 ["a.mp4", "b.mp4"] "out.mp4" "medium"
      false).fs.existsPath concatFileName = false :=
  manifest_removed_on_every_exit_path run0 fs0 ["a.mp4", "b.mp4"] "out.mp4"
    "medium" false (by decide) (by rfl)

/-- C3: when validation passes and the child process completes with exit
code `rc`, `merge_videos` returns success with the output path exactly
when `rc = 0`, and on a nonzero exit it fails with `transcodeFailed`
carrying the captured standard error text. -/
theorem merge_success_iff_exit_zero (run : List String → RunOutcome)
    (fs : FS) (input_paths : List String) (output_path quality : String)
    (overwrite : Bool) (rc : Int) (sout serr : List Char)
    (h2 : 2 ≤ input_paths.length)
    (hex : firstMissing fs input_paths = none)
    (hrun : run (buildCmd output_path quality overwrite)
      = RunOutcome.completed rc sout serr) :
    ((merge_videos run fs input_paths output_path quality overwrite).result
        = MergeResult.success output_path ↔ rc = 0)
    ∧ (rc ≠ 0 →
        (merge_videos run fs input_paths output_path quality overwrite).result
          = MergeResult.transcodeFailed serr) := by
  have h := merge_result_completed run fs input_paths output_path quality
    overwrite rc sout serr (Nat.not_lt.mpr h2) hex hrun
  refine ⟨⟨?_, ?_⟩, ?_⟩
  · intro hs
    by_contra h0
    rw [h, if_neg h0] at hs
    cases hs
  · intro h0
    rw [h, if_pos h0]
  · intro h0
    rw [h, if_neg h0]

/-- Witness for C3: the spec's example, exit code 1 with stderr
`invalid codec`. -/
theorem merge_success_iff_exit_zero_witness :
    ((merge_videos runFail fs0 ["a.mp4", "b.mp4"] "out.mp4" "high" true).result
        = MergeResult.success "out.mp4" ↔ (1 : Int) = 0)
    ∧ ((1 : Int) ≠ 0 →
        (merge_videos runFail fs0 ["a.mp4", "b.mp4"] "out.mp4" "high" true).result
          = MergeResult.transcodeFailed (String.data "invalid codec")) :=
  merge_success_iff_exit_zero runFail fs0 ["a.mp4", "b.mp4"] "out.mp4" "high"
    true 1 [] (String.data "invalid codec") (by decide) (by rfl) (by rfl)

/-- C4: the quality-tier mapping used by `merge_videos` is exactly
`low → 28`, `medium → 23`, `high → 18`, and every other tier string maps
to the same parameter as `medium`. -/
theorem quality_tier_mapping :
    qualityArgs "low" = ["-crf", "28"]
    ∧ qualityArgs "medium" = ["-crf", "23"]
    ∧ qualityArgs "high" = ["-crf", "18"]
    ∧ ∀ q : String, q ≠ "low" → q ≠ "medium" → q ≠ "high" →
        qualityArgs q = qualityArgs "medium" := by
  refine ⟨rfl, rfl, rfl, ?_⟩
  intro q h1 h2 h3
  simp [qualityArgs, h1, h2, h3]

/-- Witness for C4 at the unrecognized tier `ultra`. -/
theorem quality_tier_mapping_witness :
    qualityArgs "ultra" = qualityArgs "medium" :=
  quality_tier_mapping.2.2.2 "ultra" (by decide) (by decide) (by decide)

/-- C5: with fewer than 2 input paths, `merge_videos` fails with
`insufficientInputs`, leaves the filesystem unchanged (so no manifest is
created), and records no events (so no process is spawned). -/
theorem insufficient_inputs_no_effects (run : List String → RunOutcome)
    (fs : FS) (input_paths : List String) (output_path quality : String)
    (overwrite : Bool)
    (h : input_paths.length < 2) :
    merge_videos run fs input_paths output_path quality overwrite
      = ⟨MergeResult.insufficientInputs, fs, []⟩ := by
  unfold merge_videos
  rw [if_pos h]

/-- Witness for C5 at a single-element input list. -/
theorem insufficient_inputs_no_effects_witness :
    merge_videos run0 fs0 ["a.mp4"] "out.mp4" "medium" false
      = ⟨MergeResult.insufficientInputs, fs0, []⟩ :=
  insufficient_inputs_no_effects run0 fs0 ["a.mp4"] "out.mp4" "medium" false
    (by decide)

/-- C6: with at least 2 inputs of which some do not exist,
`merge_videos` fails with `missingFile` naming the first missing path in
input order (every earlier path exists), leaves the filesystem
unchanged and records no events. -/
theorem missing_file_first_in_order (run : List String → RunOutcome)
    (fs : FS) (pre : List String) (p : String) (suf : List String)
    (output_path quality : String) (overwrite : Bool)
    (h2 : 2 ≤ (pre ++ p :: suf).length)
    (hpre : ∀ x ∈ pre, fs.existsPath x = true)
    (hp : fs.existsPath p = false) :
    merge_videos run fs (pre ++ p :: suf) output_path quality overwrite
      = ⟨MergeResult.missingFile p, fs, []⟩ := by
  unfold merge_videos
  rw [if_neg (Nat.not_lt.mpr h2), firstMissing_append fs p suf hpre hp]

/-- Witness for C6: the second of two inputs is missing. -/
theorem missing_file_first_in_order_witness :
    merge_videos run0 fs0 (["a.mp4"] ++ "missing.mp4" :: []) "out.mp4"
      "medium" false
      = ⟨MergeResult.missingFile "missing.mp4", fs0, []⟩ :=
  missing_file_first_in_order run0 fs0 ["a.mp4"] "missing.mp4" [] "out.mp4"
    "medium" false (by decide) (by decide) (by rfl)

/-- C7: `check_ffmpeg` is a total boolean probe: for every outcome of
the probe invocation it returns a boolean, and it returns true exactly
when the process completed with exit status 0. -/
theorem check_ffmpeg_true_iff_exit_zero (probe : RunOutcome) :
    check_ffmpeg probe = true
      ↔ ∃ sout serr, probe = RunOutcome.completed 0 sout serr := by
  cases probe with
  | completed rc sout serr =>
      constructor
      · intro h
        refine ⟨sout, serr, ?_⟩
        have : rc = 0 := by
          simpa [check_ffmpeg] using h
        rw [this]
      · rintro ⟨o, e, he⟩
        cases he
        simp [check_ffmpeg]
  | exn m =>
      constructor
      · intro h
        cases h
      · rintro ⟨o, e, he⟩
        cases he

/-- Witness for C7: a spawn exception yields `false`, not an error. -/
theorem check_ffmpeg_true_iff_exit_zero_witness :
    check_ffmpeg (RunOutcome.exn (String.data "No such file")) = false := by
  rw [Bool.eq_false_iff]
  intro htrue
  obtain ⟨o, e, he⟩ :=
    (check_ffmpeg_true_iff_exit_zero
      (RunOutcome.exn (String.data "No such file"))).mp htrue
  cases he

/-- C8: `get_ffmpeg_version` returns the first line of the probe's
standard output verbatim on exit status 0 (both when the output has a
newline and when it has none), and the literal `unknown` on every
failure: nonzero exit or any exception. Total by construction. -/
theorem get_version_first_line_or_unknown :
    (∀ l r serr, (∀ c ∈ l, c ≠ Char.ofNat 10) →
        get_ffmpeg_version
          (RunOutcome.completed 0 (l ++ Char.ofNat 10 :: r) serr) = l)
    ∧ (∀ sout serr, (∀ c ∈ sout, c ≠ Char.ofNat 10) →
        get_ffmpeg_version (RunOutcome.completed 0 sout serr) = sout)
    ∧ (∀ rc sout serr, rc ≠ 0 →
        get_ffmpeg_version (RunOutcome.completed rc sout serr)
          = String.data "unknown")
    ∧ (∀ m, get_ffmpeg_version (RunOutcome.exn m) = String.data "unknown") := by
  refine ⟨?_, ?_, ?_, ?_⟩
  · intro l r serr hl
    show firstLine (l ++ Char.ofNat 10 :: r) = l
    unfold firstLine
    refine takeWhile_all_append ?_ ?_ r
    · intro c hc
      simpa using hl c hc
    · simp
  · intro sout serr hs
    show firstLine sout = sout
    unfold firstLine
    refine takeWhile_all ?_
    intro c hc
    simpa using hs c hc
  · intro rc sout serr h0
    simp [get_ffmpeg_version, h0]
  · intro m
    rfl

/-- Witness for C8: a two-line version banner yields its first line. -/
theorem get_version_first_line_or_unknown_witness :
    get_ffmpeg_version
      (RunOutcome.completed 0
        (String.data "ffmpeg version 6.0"
          ++ Char.ofNat 10 :: String.data "built with gcc") [])
      = String.data "ffmpeg version 6.0" :=
  get_version_first_line_or_unknown.1 (String.data "ffmpeg version 6.0")
    (String.data "built with gcc") [] (by decide)

/-- C9: for every filesystem and every list of at least 2 existing
inputs, the web-layer `VideoProcessor.merge_videos` spawns no child
process, writes the fixed placeholder text (header line plus a line
reporting the input count) to the output path, and returns the output
path unchanged — independent of the input file contents and of any
quality setting (it takes none). -/
theorem web_merge_writes_placeholder (fs : FS) (video_files : List String)
    (output_path : String)
    (h2 : 2 ≤ video_files.length)
    (hex : firstMissing fs video_files = none) :
    VideoProcessor.merge_videos fs video_files output_path
      = ⟨WebMergeResult.ok output_path,
         fs.write output_path (placeholderContent video_files.length), []⟩ := by
  unfold VideoProcessor.merge_videos
  rw [if_neg (Nat.not_lt.mpr h2), hex]

/-- Witness for C9 at a concrete two-file request. -/
theorem web_merge_writes_placeholder_witness :
    VideoProcessor.merge_videos fs0 ["a.mp4", "b.mp4"] "merged_video.mp4"
      = ⟨WebMergeResult.ok "merged_video.mp4",
         fs0.write "merged_video.mp4" (placeholderContent 2), []⟩ :=
  web_merge_writes_placeholder fs0 ["a.mp4", "b.mp4"] "merged_video.mp4"
    (by decide) (by rfl)

/-- C10: `allowed_file f E` returns true exactly when `f` contains a
dot and the substring after its last dot, lowercased, is a member of
`E`: filenames with no dot, and filenames whose final extension is not
in `E`, are rejected regardless of earlier extensions. -/
theorem allowed_file_iff_last_extension (f : List Char) (E : List (List Char)) :
    allowed_file f E = true
      ↔ ∃ a b, f = a ++ '.' :: b ∧ '.' ∉ b ∧ lowerStr b ∈ E := by
  unfold allowed_file
  rw [Bool.and_eq_true]
  constructor
  · rintro ⟨hc, hm⟩
    have hdot : '.' ∈ f := (contains_eq_true_iff f '.').mp hc
    obtain ⟨a, ha, hna⟩ := afterLastDot_decomp hdot
    exact ⟨a, afterLastDot f, ha, hna, (contains_eq_true_iff E _).mp hm⟩
  · rintro ⟨a, b, rfl, hnb, hmem⟩
    constructor
    · rw [contains_eq_true_iff]
      simp
    · rw [afterLastDot_eq hnb]
      exact (contains_eq_true_iff E _).mpr hmem

/-- Witness for C10: `movie.MP4` is accepted for extensions
`mp4`/`avi` via the last-extension characterization. -/
theorem allowed_file_iff_last_extension_witness :
    allowed_file (String.data "movie.MP4")
      [String.data "mp4", String.data "avi"] = true :=
  (allowed_file_iff_last_extension (String.data "movie.MP4")
      [String.data "mp4", String.data "avi"]).mpr
    ⟨String.data "movie", String.data "MP4", by decide, by decide, by decide⟩

end Videomerger
